import Mathlib

/-!
Verification of the litai-spex deployment pipeline against its design
specification.

The development shallowly embeds the JavaScript sources:

* `src/utils/fileScanner.js` — `matchesPattern`, `scanDirectory`,
  `getRemoteDirectories`;
* `src/utils/sshDeployer.js` — `connect`, `disconnect`,
  `createDirectories`, `uploadFiles`;
* `src/commands/deploy.js` — `deployCommand` (the deployment driver).

Pure functions become Lean functions; the remote SSH session is modelled
by an explicit behaviour oracle (what each remote invocation returns) and
explicit traces of the operations the code performs, so that abort /
short-circuit behaviour is visible in the result.
-/

/- ### Pattern matcher (fileScanner.js, `matchesPattern`) -/

/-- One token of the regular expression that `matchesPattern` builds with
`new RegExp('^' + pattern.replace(/\x2a/g, '.*') + '$')`.  A `*` in the
pattern becomes `.*` (`star`), a `.` stays a regex dot (`dot` — the code
does not escape it), and any regex-literal character matches itself
(`lit`).  This token language embeds the generated regex faithfully for
patterns whose characters are `*`, `.` or regex-literal characters, which
covers every pattern the tool ships or documents. -/
inductive Rtok where
  | star : Rtok
  | dot : Rtok
  | lit (c : Char) : Rtok
deriving DecidableEq

/-- Compilation of one pattern character, following
`pattern.replace(/\x2a/g, '.*')` interpolated into an anchored regex:
`*` becomes `.*`, every other character is inserted unescaped. -/
def compileChar (c : Char) : Rtok :=
  if c = '*' then Rtok.star else if c = '.' then Rtok.dot else Rtok.lit c

/-- The token list of the anchored regex built from a pattern. -/
def compile (p : String) : List Rtok := p.toList.map compileChar

/-- All suffixes of a character list, longest first (used to give `.*` its
"match zero or more of any character" semantics executably). -/
def suffixes : List Char → List (List Char)
  | [] => [[]]
  | c :: cs => (c :: cs) :: suffixes cs

/-- Executable anchored matching of a token list against a whole character
list: this is `regex.test(filename)` for the anchored regex the code
builds. -/
def rmatch : List Rtok → List Char → Bool
  | [], cs => cs.isEmpty
  | Rtok.star :: ts, cs => (suffixes cs).any fun s => rmatch ts s
  | Rtok.dot :: ts, cs =>
      match cs with
      | [] => false
      | _ :: cs => rmatch ts cs
  | Rtok.lit a :: ts, cs =>
      match cs with
      | [] => false
      | c :: cs => a == c && rmatch ts cs

/-- Embedding of `matchesPattern(filename, patterns)` from
fileScanner.js: some pattern matches, where a pattern containing `*` is
compiled to an anchored regex and tested against the whole filename, and
a pattern without `*` is compared with `===`. -/
def matchesPattern (filename : String) (patterns : List String) : Bool :=
  patterns.any fun pattern =>
    if pattern.toList.contains '*' then rmatch (compile pattern) filename.toList
    else filename == pattern

/-- Relational semantics of the anchored regex: `RMatches ts cs` holds
when the token list `ts` matches the whole character list `cs`, with
`star` matching zero or more arbitrary characters and `dot` matching
exactly one arbitrary character. -/
inductive RMatches : List Rtok → List Char → Prop where
  | nil : RMatches [] []
  | lit (a : Char) (ts : List Rtok) (cs : List Char) :
      RMatches ts cs → RMatches (Rtok.lit a :: ts) (a :: cs)
  | dot (c : Char) (ts : List Rtok) (cs : List Char) :
      RMatches ts cs → RMatches (Rtok.dot :: ts) (c :: cs)
  | starSkip (ts : List Rtok) (cs : List Char) :
      RMatches ts cs → RMatches (Rtok.star :: ts) cs
  | starCons (ts : List Rtok) (c : Char) (cs : List Char) :
      RMatches (Rtok.star :: ts) cs → RMatches (Rtok.star :: ts) (c :: cs)

/-- Modelled from the spec's words (§4.1): the claimed compilation
"escapes every non-`*` character", so every non-`*` pattern character —
including `.` — would match only itself literally, and `*` matches zero
or more arbitrary characters, anchored to the whole filename. -/
def specEscapedMatch : List Char → List Char → Bool
  | [], cs => cs.isEmpty
  | p :: ps, cs =>
      if p = '*' then (suffixes cs).any fun s => specEscapedMatch ps s
      else
        match cs with
        | [] => false
        | c :: cs => p == c && specEscapedMatch ps cs

/-- Modelled from the spec's words (§4.1): the matcher the spec
describes, with every non-`*` pattern character escaped. -/
def specMatchesPattern (filename : String) (patterns : List String) : Bool :=
  patterns.any fun pattern => specEscapedMatch pattern.toList filename.toList

/- ### Paths, the tree scanner's file entries, and the directory planner -/

/-- One entry of the scanner's output: `{local, remote}` in
fileScanner.js (`local` is a Lean keyword, so the field is named
`localPath`). -/
structure FileEntry where
  localPath : String
  remote : String
deriving DecidableEq

/-- Helper of the split: `splitSlashAux cs cur` splits `cur.reverse ++ cs` at every `/`,
accumulating the current piece in reverse in `cur`. -/
def splitSlashAux : List Char → List Char → List String
  | [], cur => [String.mk cur.reverse]
  | c :: cs, cur =>
      if c = '/' then String.mk cur.reverse :: splitSlashAux cs []
      else splitSlashAux cs (c :: cur)

/-- Embedding of JavaScript `s.split('/')` (a nonempty separator on a
string: the empty string yields `[""]`). -/
def splitSlash (s : String) : List String := splitSlashAux s.toList []

/-- Joining segments with `/`: the left inverse of `splitSlash`. -/
def joinSlash : List String → String
  | [] => ""
  | [s] => s
  | s :: rest => s ++ "/" ++ joinSlash rest

/-- Embedding of Node's `path.dirname` on the normalized, `/`-separated
relative paths the scanner produces: everything before the last `/`, or
`.` when the path has no `/`. -/
def dirname (p : String) : String :=
  let parts := splitSlash p
  if parts.length ≤ 1 then "." else joinSlash parts.dropLast

/-- The accumulation step `current = current ? current + '/' + part :
part` from `getRemoteDirectories`. -/
def addSeg (cur part : String) : String :=
  if cur = "" then part else cur ++ "/" ++ part

/-- Insertion into a JavaScript `Set` viewed as its insertion-ordered
element list: adding an element already present changes nothing. -/
def insertUnique (l : List String) (s : String) : List String :=
  if l.contains s then l else l ++ [s]

/-- The inner loop of `getRemoteDirectories`: walk the `/`-segments of
one directory path, adding each accumulated prefix to the set. -/
def addPrefixesAux : List String → String → List String → List String
  | dirs, _, [] => dirs
  | dirs, cur, part :: rest =>
      let current := addSeg cur part
      addPrefixesAux (insertUnique dirs current) current rest

/-- The list of accumulated prefixes the inner loop of
`getRemoteDirectories` inserts for one directory path. -/
def prefixesAux : String → List String → List String
  | _, [] => []
  | cur, part :: rest =>
      let current := addSeg cur part
      current :: prefixesAux current rest

/-- The `Set` of directories `getRemoteDirectories` accumulates over all
file entries, as its insertion-ordered element list: for each entry, take
`dirname(file.remote)`, and unless it is empty or `.`, add every
accumulated prefix of its `/`-segments. -/
def collectDirs (files : List FileEntry) : List String :=
  files.foldl
    (fun dirs f =>
      let dir := dirname f.remote
      if dir = "" ∨ dir = "." then dirs
      else addPrefixesAux dirs "" (splitSlash dir))
    []

/-- Segment depth of a directory path: `a.split('/').length` in the
sort comparator of `getRemoteDirectories`. -/
def depth (d : String) : Nat := (splitSlash d).length

/-- The ordering the comparator `depthA - depthB` sorts by. -/
def depthLE (a b : String) : Prop := depth a ≤ depth b

instance : DecidableRel depthLE := fun _ _ => Nat.decLe _ _

instance : IsTotal String depthLE := ⟨fun _ _ => Nat.le_total _ _⟩

instance : IsTrans String depthLE := ⟨fun _ _ _ => Nat.le_trans⟩

/-- Embedding of `getRemoteDirectories(files)` from fileScanner.js:
collect all ancestor prefixes of every entry's directory into an
insertion-ordered set, then sort by segment depth ascending.
(JavaScript `Array.prototype.sort` is stable; a stable sort by this
comparator is embedded as an insertion sort, whose result it equals.) -/
def getRemoteDirectories (files : List FileEntry) : List String :=
  List.insertionSort depthLE (collectDirs files)

/-- Predicate: `p` names a strict ancestor directory of `d`: the `/`-segments of
`d` extend those of `p` by at least one further segment. -/
def SegAncestor (p d : String) : Prop :=
  ∃ rest, rest ≠ [] ∧ splitSlash p ++ rest = splitSlash d

/- ### Tree scanner (fileScanner.js, `scanDirectory`) -/

/-- The `deploy` exclusion configuration consumed by `scanDirectory`. -/
structure ExcludeConfig where
  excludeDirectories : List String
  excludeFiles : List String
  excludePatterns : List String

/-- A local filesystem tree as the scanner observes it: `readdirSync`
lists the children in order, and `statSync` tells files and directories
apart. -/
inductive FSTree where
  | file (name : String) : FSTree
  | dir (name : String) (children : List FSTree) : FSTree

/-- Embedding of `path.join(dir, item)` on the normalized paths the
scanner builds. -/
def joinPath (dir item : String) : String := dir ++ "/" ++ item

/-- Embedding of `scanDirectory(dir, excludeConfig, baseDir)` from
fileScanner.js, walking a list of directory children.  `dirPath` is the
absolute path of the directory being scanned and `rel` its
forward-slash path relative to `baseDir` (`""` at the root, so that
`path.relative` of a child is `addSeg rel name`).  A child directory
whose name is in `excludeDirectories` is skipped whole; a child file is
skipped when its name is in `excludeFiles` or matches an
`excludePatterns` glob; every other file yields a `FileEntry`. -/
def scanDirectory (cfg : ExcludeConfig) : String → String → List FSTree → List FileEntry
  | _, _, [] => []
  | dirPath, rel, FSTree.file name :: rest =>
      (if cfg.excludeFiles.contains name then []
       else if matchesPattern name cfg.excludePatterns then []
       else [⟨joinPath dirPath name, addSeg rel name⟩]) ++
        scanDirectory cfg dirPath rel rest
  | dirPath, rel, FSTree.dir name children :: rest =>
      (if cfg.excludeDirectories.contains name then []
       else scanDirectory cfg (joinPath dirPath name) (addSeg rel name) children) ++
        scanDirectory cfg dirPath rel rest

/-- Reachability: `TreeFile t ds n` holds when descending from `t` through the
directory names in `ds` reaches a file named `n`. -/
inductive TreeFile : FSTree → List String → String → Prop where
  | file (n : String) : TreeFile (FSTree.file n) [] n
  | dir (d : String) (cs : List FSTree) (t : FSTree) (ds : List String) (n : String) :
      t ∈ cs → TreeFile t ds n → TreeFile (FSTree.dir d cs) (d :: ds) n

/- ### SSH deployer (sshDeployer.js) -/

/-- The `{code, stdout, stderr}` value `ssh.execCommand` resolves with
(it resolves even when the remote command exits nonzero; it rejects only
on transport errors). -/
structure CmdResult where
  code : Int
  stdout : String
  stderr : String
deriving DecidableEq

deriving instance DecidableEq for Except

/-- Deterministic oracle for the remote side of one deployment run:
what each `ssh.execCommand` invocation and each `ssh.putFile(local,
remote)` transfer does — resolve with a value, or reject with an error
message. -/
structure RemoteBehavior where
  execResult : String → Except String CmdResult
  putFileResult : String → String → Except String Unit

/-- The sole mutable state of an `SSHDeployer` instance: its
`connected` flag. -/
structure SSHState where
  connected : Bool
deriving DecidableEq

/-- Embedding of `SSHDeployer.disconnect()`: when connected, dispose the
underlying session (the returned flag records that `ssh.dispose()` was
invoked) and clear `connected`; otherwise do nothing.  The body is a
total function: it cannot throw. -/
def disconnect (s : SSHState) : SSHState × Bool :=
  if s.connected then ({ connected := false }, true) else (s, false)

/-- Authentication material handed to `ssh.connect`: the `config` object
either carries `privateKey` (the key file's contents) or `password`. -/
inductive AuthMethod where
  | privateKey (key : String) : AuthMethod
  | password (pw : String) : AuthMethod
deriving DecidableEq

/-- The connection section of the merged configuration.  JavaScript
truthiness of the absent/empty fields is modelled by `""`. -/
structure ConnectionConfig where
  host : String
  username : String
  password : String
  privateKeyPath : String
deriving DecidableEq

/-- Environment `connect` runs in: the working directory,
`fs.existsSync`/`fs.readFileSync` for key files (`none` means the path
does not exist), and the outcome of `ssh.connect` for a given
authentication method. -/
structure ConnectEnv where
  cwd : String
  keyFile : String → Option String
  connectOutcome : AuthMethod → Except String Unit

/-- Embedding of `path.resolve(process.cwd(), p)` on the already
normalized paths this code passes it. -/
def resolvePath (cwd p : String) : String :=
  if p.toList.head? = some '/' then p else cwd ++ "/" ++ p

/-- Embedding of `SSHDeployer.connect(connectionConfig)`.  Returns the
deployer state after the call, the authentication method passed to
`ssh.connect` (`none` when no network connection was attempted), and the
result (`Except.error` models a thrown error).  Mirrors the source: a
truthy `privateKeyPath` is resolved and read (throwing if the file does
not exist); otherwise a truthy `password` is used; otherwise the call
throws; `connected` is set only after `ssh.connect` succeeds. -/
def connect (env : ConnectEnv) (s : SSHState) (cfg : ConnectionConfig) :
    SSHState × Option AuthMethod × Except String Unit :=
  if cfg.privateKeyPath ≠ "" then
    let keyPath := resolvePath env.cwd cfg.privateKeyPath
    match env.keyFile keyPath with
    | none => (s, none, Except.error ("Private key file not found: " ++ keyPath))
    | some key =>
        match env.connectOutcome (AuthMethod.privateKey key) with
        | Except.error e => (s, some (AuthMethod.privateKey key), Except.error e)
        | Except.ok _ => ({ connected := true }, some (AuthMethod.privateKey key), Except.ok ())
  else if cfg.password ≠ "" then
    match env.connectOutcome (AuthMethod.password cfg.password) with
    | Except.error e => (s, some (AuthMethod.password cfg.password), Except.error e)
    | Except.ok _ => ({ connected := true }, some (AuthMethod.password cfg.password), Except.ok ())
  else
    (s, none, Except.error "No authentication method provided (password or private key)")

/-- The remote command string `mkdir -p "<path>"` built by
`createDirectories`. -/
def mkdirCmd (p : String) : String := "mkdir -p \"" ++ p ++ "\""

/-- The `for (const dir of directories)` loop of `createDirectories`:
returns the commands actually issued in order, the directories reported
to `onProgress`, and the final result.  The `CmdResult` each command
resolves with — in particular its exit code — is discarded, exactly as
in the source; only a rejection (transport error) stops the loop. -/
def createDirsLoop (b : RemoteBehavior) (baseDir : String) :
    List String → List String × List String × Except String Unit
  | [] => ([], [], Except.ok ())
  | d :: rest =>
      let cmd := mkdirCmd (baseDir ++ "/" ++ d)
      match b.execResult cmd with
      | Except.error e => ([cmd], [], Except.error e)
      | Except.ok _ =>
          match createDirsLoop b baseDir rest with
          | (cmds, prog, r) => (cmd :: cmds, d :: prog, r)

/-- Embedding of `SSHDeployer.createDirectories(baseDir, directories,
onProgress)`: first `mkdir -p` the base directory, then one `mkdir -p`
per directory in order.  Returns (commands issued, progress calls,
result). -/
def createDirectories (b : RemoteBehavior) (baseDir : String)
    (directories : List String) :
    List String × List String × Except String Unit :=
  let c0 := mkdirCmd baseDir
  match b.execResult c0 with
  | Except.error e => ([c0], [], Except.error e)
  | Except.ok _ =>
      match createDirsLoop b baseDir directories with
      | (cmds, prog, r) => (c0 :: cmds, prog, r)

/-- The upload loop of `uploadFiles`, carrying the 0-based index `i` of
the next file: returns the `(local, remote)` pairs passed to
`ssh.putFile` in order, the `(completed, total, remotePath)` progress
calls, and the final result.  A rejected transfer stops the loop; the
progress callback fires only after a successful transfer. -/
def uploadLoop (b : RemoteBehavior) (baseDir : String) (total : Nat) :
    Nat → List FileEntry →
      List (String × String) × List (Nat × Nat × String) × Except String Unit
  | _, [] => ([], [], Except.ok ())
  | i, f :: rest =>
      let remotePath := baseDir ++ "/" ++ f.remote
      match b.putFileResult f.localPath remotePath with
      | Except.error e => ([(f.localPath, remotePath)], [], Except.error e)
      | Except.ok _ =>
          match uploadLoop b baseDir total (i + 1) rest with
          | (att, prog, r) =>
              ((f.localPath, remotePath) :: att, (i + 1, total, f.remote) :: prog, r)

/-- Embedding of `SSHDeployer.uploadFiles(baseDir, files, onProgress)`:
sequential transfer with `total = files.length` and indices from 0. -/
def uploadFiles (b : RemoteBehavior) (baseDir : String) (files : List FileEntry) :
    List (String × String) × List (Nat × Nat × String) × Except String Unit :=
  uploadLoop b baseDir files.length 0 files

/-- The progress-call list a fully successful prefix of `k` files
produces: `(start+1, total, f1), (start+2, total, f2), ...`. -/
def progressTrace (total : Nat) : Nat → List FileEntry → List (Nat × Nat × String)
  | _, [] => []
  | start, f :: rest => (start + 1, total, f.remote) :: progressTrace total (start + 1) rest

/- ### Deployment driver (deploy.js, `deployCommand`) -/

/-- The externally visible actions of one `deployCommand` run, in
order. -/
inductive DriverAct where
  | loadConfigAct : DriverAct
  | scanAct : DriverAct
  | connectAct : DriverAct
  | serverInfoAct : DriverAct
  | createDirsAct : DriverAct
  | uploadAct : DriverAct
  | scriptAct : DriverAct
  | disconnectAct : DriverAct
  | exitAct (code : Nat) : DriverAct
deriving DecidableEq

/-- How one `deployCommand` run ends: normal completion, `process.exit`
from the catch block after a fatal error, or an early `process.exit`
before connecting. -/
inductive DriverOutcome where
  | success : DriverOutcome
  | fatal (msg : String) : DriverOutcome
  | earlyExit (code : Nat) : DriverOutcome
deriving DecidableEq

/-- Outcomes of the driver's pipeline stages for one run: each `Except`
is the result of the corresponding awaited call (`Except.error` models a
thrown/rejected error).  `validConfig` is `validateConfig(config).isValid`;
`runScript` is `options.run !== undefined`. -/
structure StageOutcomes where
  configResult : Except String Unit
  validConfig : Bool
  scanResult : Except String (List FileEntry)
  connectResult : Except String Unit
  serverInfoResult : Except String Unit
  createDirsResult : Except String Unit
  uploadResult : Except String Unit
  runScript : Bool
  scriptResult : Except String CmdResult

/-- The `try` block of `deployCommand`: performs the pipeline stages in
source order, returning the action trace, the deployer state, and either
the thrown error (`Except.error`, to be handled by the catch block) or
the run's outcome.  Mirrors the source: validation failure and the
zero-files case `process.exit` directly (no disconnect); `getServerInfo`
errors are swallowed by an inner try; `createDirectories` runs only when
the planner returned at least one directory; script errors are swallowed
by an inner try; the success path calls `disconnect()`. -/
def tryBody (st : StageOutcomes) (s0 : SSHState) :
    List DriverAct × SSHState × Except String DriverOutcome :=
  match st.configResult with
  | Except.error e => ([DriverAct.loadConfigAct], s0, Except.error e)
  | Except.ok _ =>
      if st.validConfig = false then
        ([DriverAct.loadConfigAct, DriverAct.exitAct 1], s0,
          Except.ok (DriverOutcome.earlyExit 1))
      else
        match st.scanResult with
        | Except.error e =>
            ([DriverAct.loadConfigAct, DriverAct.scanAct], s0, Except.error e)
        | Except.ok files =>
            if files.length = 0 then
              ([DriverAct.loadConfigAct, DriverAct.scanAct, DriverAct.exitAct 0], s0,
                Except.ok (DriverOutcome.earlyExit 0))
            else
              match st.connectResult with
              | Except.error e =>
                  ([DriverAct.loadConfigAct, DriverAct.scanAct, DriverAct.connectAct],
                    s0, Except.error e)
              | Except.ok _ =>
                  let s1 : SSHState := { connected := true }
                  let tr1 := [DriverAct.loadConfigAct, DriverAct.scanAct,
                    DriverAct.connectAct, DriverAct.serverInfoAct]
                  let dirActs : List DriverAct :=
                    if (getRemoteDirectories files).length = 0 then []
                    else [DriverAct.createDirsAct]
                  let dirsResult : Except String Unit :=
                    if (getRemoteDirectories files).length = 0 then Except.ok ()
                    else st.createDirsResult
                  match dirsResult with
                  | Except.error e => (tr1 ++ dirActs, s1, Except.error e)
                  | Except.ok _ =>
                      match st.uploadResult with
                      | Except.error e =>
                          (tr1 ++ dirActs ++ [DriverAct.uploadAct], s1, Except.error e)
                      | Except.ok _ =>
                          let scriptActs : List DriverAct :=
                            if st.runScript then [DriverAct.scriptAct] else []
                          let s2 := (disconnect s1).1
                          (tr1 ++ dirActs ++ [DriverAct.uploadAct] ++ scriptActs ++
                            [DriverAct.disconnectAct], s2,
                            Except.ok DriverOutcome.success)

/-- Embedding of `deployCommand(options)` from deploy.js: run the `try`
block; on a thrown error the catch block calls `deployer.disconnect()`
and then `process.exit(1)`. -/
def deployCommand (st : StageOutcomes) : List DriverAct × SSHState × DriverOutcome :=
  let s0 : SSHState := { connected := false }
  match tryBody st s0 with
  | (tr, s, Except.ok out) => (tr, s, out)
  | (tr, s, Except.error e) =>
      ((tr ++ [DriverAct.disconnectAct, DriverAct.exitAct 1]), (disconnect s).1,
        DriverOutcome.fatal e)

/-- Remote behaviour used to refute C2: every invocation resolves, but
the `mkdir -p "base/d1"` command exits with code 1 (the directory's
creation fails remotely). -/
def c2Behavior : RemoteBehavior where
  execResult := fun cmd =>
    if cmd = mkdirCmd "base/d1" then
      Except.ok ⟨1, "", "mkdir: cannot create directory"⟩
    else Except.ok ⟨0, "", ""⟩
  putFileResult := fun _ _ => Except.ok ()

/-- The first sample file of the C3 counterexample. -/
def fileA : FileEntry := ⟨"/local/a.txt", "a.txt"⟩

/-- The second sample file of the C3 counterexample. -/
def fileB : FileEntry := ⟨"/local/b.txt", "b.txt"⟩

/-- Remote behaviour in which the transfer of `fileA` rejects with the
bare error `boom`. -/
def c3BehaviorFirst : RemoteBehavior where
  execResult := fun _ => Except.ok ⟨0, "", ""⟩
  putFileResult := fun l _ =>
    if l = "/local/a.txt" then Except.error "boom" else Except.ok ()

/-- Remote behaviour in which the transfer of `fileB` rejects with the
bare error `boom`. -/
def c3BehaviorSecond : RemoteBehavior where
  execResult := fun _ => Except.ok ⟨0, "", ""⟩
  putFileResult := fun l _ =>
    if l = "/local/b.txt" then Except.error "boom" else Except.ok ()

/- ### Lemmas and claim theorems -/

theorem RMatches_nil_iff (cs : List Char) : RMatches [] cs ↔ cs = [] := by
  constructor
  · intro h; cases h; rfl
  · rintro rfl; exact RMatches.nil

theorem RMatches_lit_iff (a : Char) (ts : List Rtok) (cs : List Char) :
    RMatches (Rtok.lit a :: ts) cs ↔ ∃ cs', cs = a :: cs' ∧ RMatches ts cs' := by
  constructor
  · intro h
    cases h with
    | lit _ _ cs' h' => exact ⟨cs', rfl, h'⟩
  · rintro ⟨cs', rfl, h'⟩
    exact RMatches.lit a ts cs' h'

theorem RMatches_dot_iff (ts : List Rtok) (cs : List Char) :
    RMatches (Rtok.dot :: ts) cs ↔ ∃ c cs', cs = c :: cs' ∧ RMatches ts cs' := by
  constructor
  · intro h
    cases h with
    | dot c _ cs' h' => exact ⟨c, cs', rfl, h'⟩
  · rintro ⟨c, cs', rfl, h'⟩
    exact RMatches.dot c ts cs' h'

theorem mem_suffixes_self (cs : List Char) : cs ∈ suffixes cs := by
  cases cs <;> simp [suffixes]

theorem mem_suffixes_cons (c : Char) {s cs : List Char} (h : s ∈ suffixes cs) :
    s ∈ suffixes (c :: cs) := by
  simp [suffixes]
  right
  exact h

theorem RMatches_star_iff (ts : List Rtok) (cs : List Char) :
    RMatches (Rtok.star :: ts) cs ↔ ∃ s ∈ suffixes cs, RMatches ts s := by
  constructor
  · intro h
    induction cs with
    | nil =>
        cases h with
        | starSkip _ _ h' => exact ⟨[], by simp [suffixes], h'⟩
    | cons c cs ih =>
        cases h with
        | starSkip _ _ h' => exact ⟨c :: cs, mem_suffixes_self _, h'⟩
        | starCons _ _ _ h' =>
            obtain ⟨s, hs, hm⟩ := ih h'
            exact ⟨s, mem_suffixes_cons c hs, hm⟩
  · rintro ⟨s, hs, hm⟩
    induction cs with
    | nil =>
        simp [suffixes] at hs
        subst hs
        exact RMatches.starSkip ts [] hm
    | cons c cs ih =>
        simp [suffixes] at hs
        rcases hs with rfl | hs
        · exact RMatches.starSkip ts (c :: cs) hm
        · exact RMatches.starCons ts c cs (ih hs)

/-- Soundness and completeness of the executable matcher with respect to
the relational regex semantics. -/
theorem rmatch_iff (ts : List Rtok) : ∀ cs, rmatch ts cs = true ↔ RMatches ts cs := by
  induction ts with
  | nil =>
      intro cs
      cases cs <;> simp [rmatch, RMatches_nil_iff]
  | cons t ts ih =>
      intro cs
      cases t with
      | star =>
          rw [RMatches_star_iff]
          simp only [rmatch, List.any_eq_true]
          constructor
          · rintro ⟨s, hs, hm⟩; exact ⟨s, hs, (ih s).mp hm⟩
          · rintro ⟨s, hs, hm⟩; exact ⟨s, hs, (ih s).mpr hm⟩
      | dot =>
          cases cs with
          | nil => simp [rmatch, RMatches_dot_iff]
          | cons c cs =>
              simp only [rmatch, RMatches_dot_iff, ih]
              exact ⟨fun h => ⟨c, cs, rfl, h⟩, by rintro ⟨c', cs', h, hm⟩; cases h; exact hm⟩
      | lit a =>
          cases cs with
          | nil => simp [rmatch, RMatches_lit_iff]
          | cons c cs =>
              simp only [rmatch, Bool.and_eq_true, beq_iff_eq, RMatches_lit_iff, ih]
              constructor
              · rintro ⟨rfl, h⟩; exact ⟨cs, rfl, h⟩
              · rintro ⟨cs', h, hm⟩
                cases h
                exact ⟨rfl, hm⟩

theorem splitSlashAux_ne_nil (cs : List Char) (cur : List Char) :
    splitSlashAux cs cur ≠ [] := by
  induction cs generalizing cur with
  | nil => simp [splitSlashAux]
  | cons c cs ih =>
      by_cases h : c = '/' <;> simp [splitSlashAux, h, ih]

theorem splitSlash_ne_nil (s : String) : splitSlash s ≠ [] :=
  splitSlashAux_ne_nil _ _

theorem joinSlash_cons_of_ne_nil (s : String) {rest : List String}
    (h : rest ≠ []) : joinSlash (s :: rest) = s ++ "/" ++ joinSlash rest := by
  cases rest with
  | nil => exact absurd rfl h
  | cons r rest => rfl

theorem string_eq_of_data (a b : String) (h : a.data = b.data) : a = b := by
  cases a
  cases b
  cases h
  rfl

theorem joinSlash_splitSlashAux (cs : List Char) (cur : List Char) :
    joinSlash (splitSlashAux cs cur) = String.mk (cur.reverse ++ cs) := by
  induction cs generalizing cur with
  | nil => simp [splitSlashAux, joinSlash]
  | cons c cs ih =>
      by_cases h : c = '/'
      · subst h
        rw [show splitSlashAux ('/' :: cs) cur = String.mk cur.reverse :: splitSlashAux cs []
            from by simp [splitSlashAux]]
        rw [joinSlash_cons_of_ne_nil _ (splitSlashAux_ne_nil cs []), ih]
        apply string_eq_of_data
        have hslash : ("/" : String).data = ['/'] := rfl
        simp [String.data_append, hslash]
      · rw [show splitSlashAux (c :: cs) cur = splitSlashAux cs (c :: cur)
            from by simp [splitSlashAux, h]]
        rw [ih]
        apply string_eq_of_data
        simp

theorem joinSlash_splitSlash (p : String) : joinSlash (splitSlash p) = p := by
  rw [splitSlash, joinSlash_splitSlashAux]
  apply string_eq_of_data
  simp [String.toList]

theorem append_ne_empty_of_ne (s t : String) (h : s ≠ "") : s ++ t ≠ "" := by
  intro he
  apply h
  have hd := congrArg String.data he
  rw [String.data_append] at hd
  have hs : s.data = [] := (List.append_eq_nil.mp hd).1
  apply string_eq_of_data
  rw [hs]

theorem foldl_addSeg_of_ne (rest : List String) (cur : String) (h : cur ≠ "") :
    rest.foldl addSeg cur = joinSlash (cur :: rest) := by
  induction rest generalizing cur with
  | nil => simp [joinSlash]
  | cons b rest ih =>
      have hstep : addSeg cur b = cur ++ "/" ++ b := by simp [addSeg, h]
      have hne : cur ++ "/" ++ b ≠ "" := by
        rw [String.append_assoc]
        exact append_ne_empty_of_ne _ _ h
      rw [List.foldl_cons, hstep, ih _ hne]
      cases rest with
      | nil => rfl
      | cons r rest' =>
          rw [joinSlash_cons_of_ne_nil (cur ++ "/" ++ b) (by simp),
            joinSlash_cons_of_ne_nil cur (by simp),
            joinSlash_cons_of_ne_nil b (by simp)]
          simp [String.append_assoc]

theorem mem_insertUnique (l : List String) (s a : String) :
    a ∈ insertUnique l s ↔ a ∈ l ∨ a = s := by
  unfold insertUnique
  by_cases hs : s ∈ l
  · rw [if_pos (by simpa using hs)]
    constructor
    · exact Or.inl
    · rintro (ha | rfl)
      · exact ha
      · exact hs
  · rw [if_neg (by simpa using hs)]
    simp

theorem nodup_insertUnique (l : List String) (s : String) (h : l.Nodup) :
    (insertUnique l s).Nodup := by
  unfold insertUnique
  by_cases hs : s ∈ l
  · rw [if_pos (by simpa using hs)]
    exact h
  · rw [if_neg (by simpa using hs)]
    simp [List.nodup_append, h, hs]

theorem mem_addPrefixesAux (parts : List String) (dirs : List String)
    (cur : String) (a : String) :
    a ∈ addPrefixesAux dirs cur parts ↔ a ∈ dirs ∨ a ∈ prefixesAux cur parts := by
  induction parts generalizing dirs cur with
  | nil => simp [addPrefixesAux, prefixesAux]
  | cons part rest ih =>
      simp only [addPrefixesAux, prefixesAux, ih, mem_insertUnique, List.mem_cons]
      tauto

theorem nodup_addPrefixesAux (parts : List String) (dirs : List String)
    (cur : String) (h : dirs.Nodup) : (addPrefixesAux dirs cur parts).Nodup := by
  induction parts generalizing dirs cur with
  | nil => simpa [addPrefixesAux] using h
  | cons part rest ih =>
      exact ih _ _ (nodup_insertUnique _ _ h)

theorem mem_prefixesAux_take (segs : List String) (cur : String) (k : Nat)
    (hk : k < segs.length) :
    (segs.take (k + 1)).foldl addSeg cur ∈ prefixesAux cur segs := by
  induction segs generalizing cur k with
  | nil => simp at hk
  | cons s rest ih =>
      cases k with
      | zero => simp [prefixesAux]
      | succ k =>
          simp only [List.take_succ_cons, List.foldl_cons, prefixesAux, List.mem_cons]
          right
          exact ih (addSeg cur s) k (by simpa using hk)

theorem mem_foldl_collect_mono (files : List FileEntry) (dirs : List String)
    (a : String) (ha : a ∈ dirs) :
    a ∈ files.foldl
      (fun dirs f =>
        let dir := dirname f.remote
        if dir = "" ∨ dir = "." then dirs
        else addPrefixesAux dirs "" (splitSlash dir))
      dirs := by
  induction files generalizing dirs with
  | nil => simpa using ha
  | cons f rest ih =>
      rw [List.foldl_cons]
      apply ih
      by_cases h : dirname f.remote = "" ∨ dirname f.remote = "."
      · simpa [h] using ha
      · simp only [h, if_false]
        exact (mem_addPrefixesAux _ _ _ _).mpr (Or.inl ha)

theorem mem_foldl_collect_of_mem (files : List FileEntry) (dirs : List String)
    (f : FileEntry) (hf : f ∈ files)
    (hne : ¬(dirname f.remote = "" ∨ dirname f.remote = "."))
    (p : String) (hp : p ∈ prefixesAux "" (splitSlash (dirname f.remote))) :
    p ∈ files.foldl
      (fun dirs f =>
        let dir := dirname f.remote
        if dir = "" ∨ dir = "." then dirs
        else addPrefixesAux dirs "" (splitSlash dir))
      dirs := by
  induction files generalizing dirs with
  | nil => simp at hf
  | cons g rest ih =>
      rw [List.foldl_cons]
      rcases List.mem_cons.mp hf with rfl | hf'
      · apply mem_foldl_collect_mono
        simp only [hne, if_false]
        exact (mem_addPrefixesAux _ _ _ _).mpr (Or.inr hp)
      · exact ih _ hf'

theorem nodup_collectDirs (files : List FileEntry) : (collectDirs files).Nodup := by
  unfold collectDirs
  suffices h : ∀ dirs : List String, dirs.Nodup →
      (files.foldl
        (fun dirs f =>
          let dir := dirname f.remote
          if dir = "" ∨ dir = "." then dirs
          else addPrefixesAux dirs "" (splitSlash dir))
        dirs).Nodup by
    exact h [] List.nodup_nil
  induction files with
  | nil => intro dirs hd; simpa using hd
  | cons f rest ih =>
      intro dirs hd
      rw [List.foldl_cons]
      apply ih
      by_cases h : dirname f.remote = "" ∨ dirname f.remote = "."
      · simpa [h] using hd
      · simp only [h, if_false]
        exact nodup_addPrefixesAux _ _ _ hd

theorem sorted_getRemoteDirectories (files : List FileEntry) :
    (getRemoteDirectories files).Pairwise depthLE :=
  List.sorted_insertionSort depthLE (collectDirs files)

theorem mem_getRemoteDirectories (files : List FileEntry) (a : String) :
    a ∈ getRemoteDirectories files ↔ a ∈ collectDirs files :=
  (List.perm_insertionSort depthLE (collectDirs files)).mem_iff

theorem nodup_getRemoteDirectories (files : List FileEntry) :
    (getRemoteDirectories files).Nodup :=
  ((List.perm_insertionSort depthLE (collectDirs files)).nodup_iff).mpr
    (nodup_collectDirs files)

theorem SegAncestor.depth_lt {p d : String} (h : SegAncestor p d) :
    depth p < depth d := by
  obtain ⟨rest, hne, heq⟩ := h
  have hlen := congrArg List.length heq
  rw [List.length_append] at hlen
  have hpos : 0 < rest.length := List.length_pos.mpr hne
  unfold depth
  omega

theorem SegAncestor.ne {p d : String} (h : SegAncestor p d) : p ≠ d := by
  intro he
  subst he
  exact absurd rfl (Nat.ne_of_lt h.depth_lt)

theorem pairwise_indexOf_lt (l : List String) (hp : l.Pairwise depthLE)
    (_hn : l.Nodup) (d1 d2 : String) (h1 : d1 ∈ l) (h2 : d2 ∈ l)
    (hd : depth d1 < depth d2) : l.indexOf d1 < l.indexOf d2 := by
  have hi1 : l.indexOf d1 < l.length := List.indexOf_lt_length.mpr h1
  have hi2 : l.indexOf d2 < l.length := List.indexOf_lt_length.mpr h2
  have hg1 : l.get ⟨l.indexOf d1, hi1⟩ = d1 := List.indexOf_get hi1
  have hg2 : l.get ⟨l.indexOf d2, hi2⟩ = d2 := List.indexOf_get hi2
  rcases Nat.lt_trichotomy (l.indexOf d1) (l.indexOf d2) with hlt | heq | hgt
  · exact hlt
  · exfalso
    have : d1 = d2 := by
      rw [← hg1, ← hg2]
      congr 1
      exact Fin.ext heq
    subst this
    exact absurd rfl (Nat.ne_of_lt hd)
  · exfalso
    have := List.pairwise_iff_get.mp hp ⟨l.indexOf d2, hi2⟩ ⟨l.indexOf d1, hi1⟩ hgt
    rw [hg1, hg2] at this
    exact absurd this (by unfold depthLE; omega)

theorem mem_prefixesAux_of_ancestor (p dir : String)
    (hw : "" ∉ splitSlash dir)
    (h : SegAncestor p dir ∨ p = dir) :
    p ∈ prefixesAux "" (splitSlash dir) := by
  obtain ⟨rest, heq⟩ : ∃ rest, splitSlash p ++ rest = splitSlash dir := by
    rcases h with ⟨rest, _, heq⟩ | rfl
    · exact ⟨rest, heq⟩
    · exact ⟨[], List.append_nil _⟩
  obtain ⟨h0, t, hpt⟩ : ∃ h0 t, splitSlash p = h0 :: t := by
    cases hsp : splitSlash p with
    | nil => exact absurd hsp (splitSlash_ne_nil p)
    | cons h0 t => exact ⟨h0, t, rfl⟩
  have hh0 : h0 ≠ "" := by
    intro he
    apply hw
    rw [← heq, hpt, he]
    exact List.mem_cons_self _ _
  have hfold : (splitSlash p).foldl addSeg "" = p := by
    rw [hpt, List.foldl_cons, show addSeg "" h0 = h0 from by simp [addSeg],
      foldl_addSeg_of_ne t h0 hh0, ← hpt, joinSlash_splitSlash]
  have hpos : 0 < (splitSlash p).length := by
    rw [hpt]
    simp
  have hlen : (splitSlash p).length - 1 < (splitSlash dir).length := by
    have hl := congrArg List.length heq
    rw [List.length_append] at hl
    omega
  have htake : (splitSlash dir).take ((splitSlash p).length - 1 + 1) = splitSlash p := by
    have hn : (splitSlash p).length - 1 + 1 = (splitSlash p).length := by omega
    rw [hn, ← heq, List.take_left]
  have hmem := mem_prefixesAux_take (splitSlash dir) "" ((splitSlash p).length - 1) hlen
  rw [htake, hfold] at hmem
  exact hmem

theorem TreeFile_file_iff (m : String) (ds : List String) (n : String) :
    TreeFile (FSTree.file m) ds n ↔ ds = [] ∧ n = m := by
  constructor
  · intro h
    cases h
    exact ⟨rfl, rfl⟩
  · rintro ⟨rfl, rfl⟩
    exact TreeFile.file _

theorem TreeFile_dir_iff (d : String) (cs : List FSTree) (ds : List String) (n : String) :
    TreeFile (FSTree.dir d cs) ds n ↔
      ∃ t ds', ds = d :: ds' ∧ t ∈ cs ∧ TreeFile t ds' n := by
  constructor
  · intro h
    cases h with
    | dir _ _ t ds' _ ht htf => exact ⟨t, ds', rfl, ht, htf⟩
  · rintro ⟨t, ds', rfl, ht, htf⟩
    exact TreeFile.dir d cs t ds' n ht htf

theorem scanDirectory_nil (cfg : ExcludeConfig) (dirPath rel : String) :
    scanDirectory cfg dirPath rel [] = [] := by
  simp [scanDirectory]

theorem scanDirectory_file_cons (cfg : ExcludeConfig) (dirPath rel name : String)
    (rest : List FSTree) :
    scanDirectory cfg dirPath rel (FSTree.file name :: rest) =
      (if cfg.excludeFiles.contains name then []
       else if matchesPattern name cfg.excludePatterns then []
       else [⟨joinPath dirPath name, addSeg rel name⟩]) ++
        scanDirectory cfg dirPath rel rest := by
  conv_lhs => rw [scanDirectory]

theorem scanDirectory_dir_cons (cfg : ExcludeConfig) (dirPath rel name : String)
    (children rest : List FSTree) :
    scanDirectory cfg dirPath rel (FSTree.dir name children :: rest) =
      (if cfg.excludeDirectories.contains name then []
       else scanDirectory cfg (joinPath dirPath name) (addSeg rel name) children) ++
        scanDirectory cfg dirPath rel rest := by
  conv_lhs => rw [scanDirectory]

theorem scanDirectory_mem_iff (cfg : ExcludeConfig) (dirPath rel : String)
    (items : List FSTree) (e : FileEntry) :
    e ∈ scanDirectory cfg dirPath rel items ↔
      ∃ t ds n, t ∈ items ∧ TreeFile t ds n ∧
        (∀ d ∈ ds, cfg.excludeDirectories.contains d = false) ∧
        cfg.excludeFiles.contains n = false ∧
        matchesPattern n cfg.excludePatterns = false ∧
        e = ⟨(ds ++ [n]).foldl joinPath dirPath, (ds ++ [n]).foldl addSeg rel⟩ := by
  induction dirPath, rel, items using scanDirectory.induct cfg with
  | case1 dirPath rel => simp [scanDirectory_nil]
  | case2 dirPath rel name rest ih =>
      rw [scanDirectory_file_cons, List.mem_append, ih]
      constructor
      · rintro (hmem | ⟨t, ds, n, ht, htf, hds, hf, hp, rfl⟩)
        · by_cases h1 : cfg.excludeFiles.contains name
          · rw [if_pos h1] at hmem
            simp at hmem
          · rw [if_neg h1] at hmem
            by_cases h2 : matchesPattern name cfg.excludePatterns
            · rw [if_pos h2] at hmem
              simp at hmem
            · rw [if_neg h2, List.mem_singleton] at hmem
              refine ⟨FSTree.file name, [], name, List.mem_cons_self _ _,
                TreeFile.file name, by simp, by simpa using h1, by simpa using h2, ?_⟩
              simp [hmem]
        · exact ⟨t, ds, n, List.mem_cons_of_mem _ ht, htf, hds, hf, hp, rfl⟩
      · rintro ⟨t, ds, n, ht, htf, hds, hf, hp, rfl⟩
        rcases List.mem_cons.mp ht with rfl | ht'
        · rw [TreeFile_file_iff] at htf
          obtain ⟨rfl, rfl⟩ := htf
          left
          rw [if_neg (by simpa using hf), if_neg (by simpa using hp)]
          simp
        · right
          exact ⟨t, ds, n, ht', htf, hds, hf, hp, rfl⟩
  | case3 dirPath rel name children rest ih1 ih2 =>
      rw [scanDirectory_dir_cons, List.mem_append, ih2]
      by_cases h1 : cfg.excludeDirectories.contains name
      · rw [if_pos h1]
        simp only [List.not_mem_nil, false_or]
        constructor
        · rintro ⟨t, ds, n, ht, htf, hds, hf, hp, rfl⟩
          exact ⟨t, ds, n, List.mem_cons_of_mem _ ht, htf, hds, hf, hp, rfl⟩
        · rintro ⟨t, ds, n, ht, htf, hds, hf, hp, rfl⟩
          rcases List.mem_cons.mp ht with rfl | ht'
          · rw [TreeFile_dir_iff] at htf
            obtain ⟨t', ds', rfl, ht'', htf'⟩ := htf
            have hcontra := hds name (List.mem_cons_self _ _)
            rw [h1] at hcontra
            simp at hcontra
          · exact ⟨t, ds, n, ht', htf, hds, hf, hp, rfl⟩
      · rw [if_neg h1, ih1]
        constructor
        · rintro (⟨t', ds', n, ht', htf', hds', hf, hp, rfl⟩ |
            ⟨t, ds, n, ht, htf, hds, hf, hp, rfl⟩)
          · refine ⟨FSTree.dir name children, name :: ds', n, List.mem_cons_self _ _,
              TreeFile.dir name children t' ds' n ht' htf', ?_, hf, hp, ?_⟩
            · intro d hd
              rcases List.mem_cons.mp hd with rfl | hd'
              · simpa using h1
              · exact hds' d hd'
            · simp
          · exact ⟨t, ds, n, List.mem_cons_of_mem _ ht, htf, hds, hf, hp, rfl⟩
        · rintro ⟨t, ds, n, ht, htf, hds, hf, hp, rfl⟩
          rcases List.mem_cons.mp ht with rfl | ht'
          · rw [TreeFile_dir_iff] at htf
            obtain ⟨t', ds', rfl, ht'', htf'⟩ := htf
            left
            refine ⟨t', ds', n, ht'', htf', ?_, hf, hp, ?_⟩
            · intro d hd
              exact hds d (List.mem_cons_of_mem _ hd)
            · simp
          · right
            exact ⟨t, ds, n, ht', htf, hds, hf, hp, rfl⟩

/- ### Claim theorems -/

/-- C1 (counterexample): the pattern matcher does not escape non-`*`
characters.  For the pattern `*.log` the code builds the regex
`^.*.log$`, whose unescaped `.` matches any character, so the filename
`app_log` (which contains no `.` at all) matches; under the spec's
claimed escaped compilation it would not. -/
theorem matchesPattern_escaping_counterexample :
    matchesPattern "app_log" ["*.log"] = true ∧
    specMatchesPattern "app_log" ["*.log"] = false := by
  exact ⟨by decide, by decide⟩

/-- C1 (amended): for patterns containing `*`, `matchesPattern` tests
the anchored regex obtained by replacing each `*` with "match zero or
more of any character" and inserting every other character unescaped
(so `.` matches any single character), against the entire filename; and
`matches("app.log", ["*.log"])` is true while
`matches("app.log.bak", ["*.log"])` is false. -/
theorem matchesPattern_amended_spec (s p : String) :
    (p.toList.contains '*' = true →
      (matchesPattern s [p] = true ↔ RMatches (compile p) s.toList)) ∧
    matchesPattern "app.log" ["*.log"] = true ∧
    matchesPattern "app.log.bak" ["*.log"] = false := by
  refine ⟨fun h => ?_, by decide, by decide⟩
  simp only [matchesPattern, List.any_cons, List.any_nil, Bool.or_false, h, if_true]
  exact rmatch_iff (compile p) s.toList

/-- Witness for C1 (amended) at the concrete pattern `*.log`. -/
theorem matchesPattern_amended_spec_witness :
    matchesPattern "x.log" ["*.log"] = true ↔ RMatches (compile "*.log") "x.log".toList :=
  (matchesPattern_amended_spec "x.log" "*.log").1 (by decide)

/-- C10: a pattern without `*` is never compiled to a regex; it matches
a filename exactly when the two strings are identical. -/
theorem matchesPattern_no_star_exact (s p : String)
    (h : p.toList.contains '*' = false) :
    matchesPattern s [p] = true ↔ s = p := by
  simp only [matchesPattern, List.any_cons, List.any_nil, Bool.or_false, h,
    Bool.false_eq_true, if_false, beq_iff_eq]

/-- Witness for C10 at a concrete starless pattern. -/
theorem matchesPattern_no_star_exact_witness :
    matchesPattern "app.log" ["app.log"] = true ↔ "app.log" = "app.log" :=
  matchesPattern_no_star_exact "app.log" "app.log" (by decide)

/-- C8: `disconnect()` is idempotent and total.  On a never-connected
session it is a no-op that disposes nothing; a second call after any
call is a no-op; on a connected session it disposes the underlying
session and leaves the state disconnected.  (Totality of the Lean
function reflects that the body cannot throw.) -/
theorem disconnect_idempotent_spec :
    disconnect ⟨false⟩ = (⟨false⟩, false) ∧
    (∀ s : SSHState, disconnect (disconnect s).1 = ((disconnect s).1, false)) ∧
    disconnect ⟨true⟩ = (⟨false⟩, true) := by
  refine ⟨rfl, ?_, rfl⟩
  intro s
  obtain ⟨c⟩ := s
  cases c <;> rfl

/-- C7: a non-empty private key path is preferred for authentication
over any password: whenever an authentication method reaches
`ssh.connect` under a non-empty key path it is a private key, a
password is handed to `ssh.connect` only when the key path is empty,
and with an empty key path a non-empty password is the method used. -/
theorem connect_key_precedence_spec (env : ConnectEnv) (s : SSHState)
    (cfg : ConnectionConfig) :
    (cfg.privateKeyPath ≠ "" →
      ∀ m, (connect env s cfg).2.1 = some m → ∃ k, m = AuthMethod.privateKey k) ∧
    (∀ pw, (connect env s cfg).2.1 = some (AuthMethod.password pw) →
      cfg.privateKeyPath = "" ∧ pw = cfg.password) ∧
    (cfg.privateKeyPath = "" → cfg.password ≠ "" →
      (connect env s cfg).2.1 = some (AuthMethod.password cfg.password)) := by
  by_cases hk : cfg.privateKeyPath = ""
  · have hcon : connect env s cfg =
        (if cfg.password ≠ "" then
          match env.connectOutcome (AuthMethod.password cfg.password) with
          | Except.error e =>
              (s, some (AuthMethod.password cfg.password), Except.error e)
          | Except.ok _ =>
              ({ connected := true }, some (AuthMethod.password cfg.password),
                Except.ok ())
         else
          (s, none,
            Except.error "No authentication method provided (password or private key)")) := by
      unfold connect
      rw [if_neg (by simp [hk])]
    refine ⟨fun hne => absurd hk hne, ?_, ?_⟩
    · intro pw hpw
      by_cases hp : cfg.password ≠ ""
      · rw [hcon, if_pos hp] at hpw
        rcases hout : env.connectOutcome (AuthMethod.password cfg.password) with e | u <;>
          rw [hout] at hpw <;> simp at hpw <;> exact ⟨hk, hpw.symm⟩
      · rw [hcon, if_neg hp] at hpw
        simp at hpw
    · intro _ hp
      rw [hcon, if_pos hp]
      rcases hout : env.connectOutcome (AuthMethod.password cfg.password) with e | u <;>
        simp
  · have hcon : connect env s cfg =
        (let keyPath := resolvePath env.cwd cfg.privateKeyPath
         match env.keyFile keyPath with
         | none => (s, none, Except.error ("Private key file not found: " ++ keyPath))
         | some key =>
             match env.connectOutcome (AuthMethod.privateKey key) with
             | Except.error e =>
                 (s, some (AuthMethod.privateKey key), Except.error e)
             | Except.ok _ =>
                 ({ connected := true }, some (AuthMethod.privateKey key),
                   Except.ok ())) := by
      unfold connect
      rw [if_pos hk]
    refine ⟨?_, ?_, fun hke => absurd hke hk⟩
    · intro _ m hm
      rw [hcon] at hm
      rcases hkf : env.keyFile (resolvePath env.cwd cfg.privateKeyPath) with _ | key <;>
        simp only [hkf] at hm
      · simp at hm
      · rcases hout : env.connectOutcome (AuthMethod.privateKey key) with e | u <;>
          rw [hout] at hm <;> simp at hm <;> exact ⟨key, hm.symm⟩
    · intro pw hpw
      rw [hcon] at hpw
      rcases hkf : env.keyFile (resolvePath env.cwd cfg.privateKeyPath) with _ | key <;>
        simp only [hkf] at hpw
      · simp at hpw
      · rcases hout : env.connectOutcome (AuthMethod.privateKey key) with e | u <;>
          rw [hout] at hpw <;> simp at hpw

/-- Witness for C7: with both a key path and a password configured, the
method handed to `ssh.connect` is the private key. -/
theorem connect_key_precedence_spec_witness :
    ∃ k, AuthMethod.privateKey "KEYDATA" = AuthMethod.privateKey k :=
  (connect_key_precedence_spec
      ⟨"/home/u", fun _ => some "KEYDATA", fun _ => Except.ok ()⟩
      ⟨false⟩
      ⟨"h", "u", "pw", "id_rsa"⟩).1
    (by decide) (AuthMethod.privateKey "KEYDATA") (by decide)

/-- C9: with neither a key path nor a password, `connect` throws
`No authentication method provided` without touching the network and
without changing the session state; a non-empty key path whose file
does not exist likewise throws `Private key file not found` before any
connection attempt. -/
theorem connect_no_auth_spec (env : ConnectEnv) (s : SSHState)
    (cfg : ConnectionConfig) :
    (cfg.privateKeyPath = "" → cfg.password = "" →
      connect env s cfg =
        (s, none,
          Except.error "No authentication method provided (password or private key)")) ∧
    (cfg.privateKeyPath ≠ "" →
      env.keyFile (resolvePath env.cwd cfg.privateKeyPath) = none →
      connect env s cfg =
        (s, none,
          Except.error
            ("Private key file not found: " ++ resolvePath env.cwd cfg.privateKeyPath))) := by
  constructor
  · intro hk hp
    unfold connect
    rw [if_neg (by simp [hk]), if_neg (by simp [hp])]
  · intro hk hkf
    unfold connect
    rw [if_pos hk]
    simp only [hkf]

/-- Witness for C9 at a concrete empty configuration. -/
theorem connect_no_auth_spec_witness :
    connect ⟨"/home/u", fun _ => none, fun _ => Except.ok ()⟩ ⟨false⟩ ⟨"h", "u", "", ""⟩ =
      (⟨false⟩, none,
        Except.error "No authentication method provided (password or private key)") :=
  (connect_no_auth_spec ⟨"/home/u", fun _ => none, fun _ => Except.ok ()⟩ ⟨false⟩
    ⟨"h", "u", "", ""⟩).1 rfl rfl

theorem createDirsLoop_all_ok (b : RemoteBehavior) (baseDir : String)
    (dirs : List String)
    (h : ∀ d ∈ dirs, ∃ r, b.execResult (mkdirCmd (baseDir ++ "/" ++ d)) = Except.ok r) :
    createDirsLoop b baseDir dirs =
      (dirs.map (fun d => mkdirCmd (baseDir ++ "/" ++ d)), dirs, Except.ok ()) := by
  induction dirs with
  | nil => rfl
  | cons d rest ih =>
      obtain ⟨r, hr⟩ := h d (List.mem_cons_self _ _)
      have hrest := ih (fun d' hd => h d' (List.mem_cons_of_mem _ hd))
      simp only [createDirsLoop, hr, hrest, List.map_cons]

theorem createDirsLoop_reject (b : RemoteBehavior) (baseDir : String)
    (pre post : List String) (d e : String)
    (hpre : ∀ d' ∈ pre, ∃ r, b.execResult (mkdirCmd (baseDir ++ "/" ++ d')) = Except.ok r)
    (hd : b.execResult (mkdirCmd (baseDir ++ "/" ++ d)) = Except.error e) :
    createDirsLoop b baseDir (pre ++ d :: post) =
      ((pre ++ [d]).map (fun d' => mkdirCmd (baseDir ++ "/" ++ d')), pre,
        Except.error e) := by
  induction pre with
  | nil => simp only [List.nil_append, createDirsLoop, hd, List.map_cons, List.map_nil]
  | cons p pre ih =>
      obtain ⟨r, hr⟩ := hpre p (List.mem_cons_self _ _)
      have hrest := ih (fun d' hd' => hpre d' (List.mem_cons_of_mem _ hd'))
      simp only [List.cons_append, createDirsLoop, hr, List.map_cons,
        show pre.append (d :: post) = pre ++ d :: post from rfl, hrest]

/-- C2 (amended): `createDirectories` never inspects the exit status of
the remote `mkdir -p` commands.  When every remote invocation resolves —
even with a nonzero exit code, i.e. even when a directory's creation
failed — it issues one command per directory in order and reports
success.  It aborts only when an invocation rejects (a transport
error): then the remaining directories are not attempted and the
underlying rejection error is propagated unchanged, with no failing
path attached. -/
theorem createDirectories_amended_spec (b : RemoteBehavior) (baseDir : String) :
    (∀ dirs : List String,
      (∃ r0, b.execResult (mkdirCmd baseDir) = Except.ok r0) →
      (∀ d ∈ dirs, ∃ r, b.execResult (mkdirCmd (baseDir ++ "/" ++ d)) = Except.ok r) →
      createDirectories b baseDir dirs =
        (mkdirCmd baseDir :: dirs.map (fun d => mkdirCmd (baseDir ++ "/" ++ d)),
          dirs, Except.ok ())) ∧
    (∀ (pre post : List String) (d e : String),
      (∃ r0, b.execResult (mkdirCmd baseDir) = Except.ok r0) →
      (∀ d' ∈ pre, ∃ r, b.execResult (mkdirCmd (baseDir ++ "/" ++ d')) = Except.ok r) →
      b.execResult (mkdirCmd (baseDir ++ "/" ++ d)) = Except.error e →
      createDirectories b baseDir (pre ++ d :: post) =
        (mkdirCmd baseDir :: (pre ++ [d]).map (fun d' => mkdirCmd (baseDir ++ "/" ++ d')),
          pre, Except.error e)) := by
  constructor
  · rintro dirs ⟨r0, hr0⟩ h
    simp only [createDirectories, hr0, createDirsLoop_all_ok b baseDir dirs h]
  · rintro pre post d e ⟨r0, hr0⟩ hpre hd
    simp only [createDirectories, hr0, createDirsLoop_reject b baseDir pre post d e hpre hd]

/-- C2 (counterexample): the creation of `d1` fails remotely (`mkdir`
exits 1), yet `createDirectories` still attempts `d2` and reports
overall success with no error naming the failing path. -/
theorem createDirectories_counterexample :
    c2Behavior.execResult (mkdirCmd "base/d1") =
      Except.ok ⟨1, "", "mkdir: cannot create directory"⟩ ∧
    createDirectories c2Behavior "base" ["d1", "d2"] =
      ([mkdirCmd "base", mkdirCmd "base/d1", mkdirCmd "base/d2"], ["d1", "d2"],
        Except.ok ()) := by
  exact ⟨by decide, by decide⟩

/-- Witness for C2 (amended) at a concrete behaviour and directory
list. -/
theorem createDirectories_amended_spec_witness :
    createDirectories c2Behavior "base" ["d1", "d2"] =
      (mkdirCmd "base" :: (["d1", "d2"].map fun d => mkdirCmd ("base" ++ "/" ++ d)),
        ["d1", "d2"], Except.ok ()) :=
  (createDirectories_amended_spec c2Behavior "base").1 ["d1", "d2"]
    ⟨⟨0, "", ""⟩, by decide⟩
    (by
      intro d hd
      rcases List.mem_cons.mp hd with rfl | hd'
      · exact ⟨⟨1, "", "mkdir: cannot create directory"⟩, by decide⟩
      · rcases List.mem_singleton.mp hd' with rfl
        exact ⟨⟨0, "", ""⟩, by decide⟩)

theorem progressTrace_length (total : Nat) (files : List FileEntry) :
    ∀ start, (progressTrace total start files).length = files.length := by
  induction files with
  | nil => intro start; rfl
  | cons f rest ih => intro start; simp [progressTrace, ih]

theorem uploadLoop_reject (b : RemoteBehavior) (baseDir : String) (total : Nat)
    (pre post : List FileEntry) (fk : FileEntry) (e : String)
    (hpre : ∀ f ∈ pre, b.putFileResult f.localPath (baseDir ++ "/" ++ f.remote) = Except.ok ())
    (hf : b.putFileResult fk.localPath (baseDir ++ "/" ++ fk.remote) = Except.error e) :
    ∀ i, uploadLoop b baseDir total i (pre ++ fk :: post) =
      ((pre ++ [fk]).map (fun f => (f.localPath, baseDir ++ "/" ++ f.remote)),
        progressTrace total i pre, Except.error e) := by
  induction pre with
  | nil =>
      intro i
      simp only [List.nil_append, uploadLoop, hf, List.map_cons, List.map_nil, progressTrace]
  | cons g pre ih =>
      intro i
      have hg := hpre g (List.mem_cons_self _ _)
      have hrest := ih (fun f hf' => hpre f (List.mem_cons_of_mem _ hf')) (i + 1)
      simp only [List.cons_append, uploadLoop, hg, List.map_cons, progressTrace,
        show pre.append (fk :: post) = pre ++ fk :: post from rfl, hrest]

/-- C3 (amended): when the transfer of the file after a fully
successful prefix `pre` rejects, `uploadFiles` has invoked the progress
callback exactly `pre.length` times (reporting `1 .. pre.length`
completed), attempts no later file (exactly the prefix and the failing
file reach `ssh.putFile`), and propagates the underlying transfer error
unchanged — `uploadFiles` itself attaches neither the failing file nor
the success count to the error. -/
theorem uploadFiles_amended_spec (b : RemoteBehavior) (baseDir : String)
    (pre post : List FileEntry) (fk : FileEntry) (e : String)
    (hpre : ∀ f ∈ pre, b.putFileResult f.localPath (baseDir ++ "/" ++ f.remote) = Except.ok ())
    (hf : b.putFileResult fk.localPath (baseDir ++ "/" ++ fk.remote) = Except.error e) :
    uploadFiles b baseDir (pre ++ fk :: post) =
      ((pre ++ [fk]).map (fun f => (f.localPath, baseDir ++ "/" ++ f.remote)),
        progressTrace (pre ++ fk :: post).length 0 pre, Except.error e) ∧
    (progressTrace (pre ++ fk :: post).length 0 pre).length = pre.length := by
  exact ⟨uploadLoop_reject b baseDir (pre ++ fk :: post).length pre post fk e hpre hf 0,
    progressTrace_length _ _ 0⟩

/-- C3 (counterexample): the error `uploadFiles` propagates is the raw
transfer error.  Two runs over the same file list in which different
files fail — with 0 and 1 files succeeding beforehand — propagate the
identical error value `boom`, so the propagated error surfaces neither
which file failed nor how many succeeded before it. -/
theorem uploadFiles_error_counterexample :
    (uploadFiles c3BehaviorFirst "base" [fileA, fileB]).2.2 = Except.error "boom" ∧
    (uploadFiles c3BehaviorSecond "base" [fileA, fileB]).2.2 = Except.error "boom" ∧
    (uploadFiles c3BehaviorFirst "base" [fileA, fileB]).2.1.length = 0 ∧
    (uploadFiles c3BehaviorSecond "base" [fileA, fileB]).2.1.length = 1 := by
  exact ⟨by decide, by decide, by decide, by decide⟩

/-- Witness for C3 (amended): file 2 of 2 fails, one progress call was
made, no later file is attempted, and the raw error propagates. -/
theorem uploadFiles_amended_spec_witness :
    uploadFiles c3BehaviorSecond "base" ([fileA] ++ fileB :: []) =
      (([fileA] ++ [fileB]).map (fun f => (f.localPath, "base" ++ "/" ++ f.remote)),
        progressTrace ([fileA] ++ fileB :: []).length 0 [fileA], Except.error "boom") ∧
    (progressTrace ([fileA] ++ fileB :: []).length 0 [fileA]).length = [fileA].length :=
  uploadFiles_amended_spec c3BehaviorSecond "base" [fileA] [] fileB "boom"
    (by
      intro f hf
      rcases List.mem_singleton.mp hf with rfl
      decide)
    (by decide)

/-- C4: for well-formed entries (directory paths without empty
`/`-segments), the planner's output is a deduplicated list that
contains the entry's directory and each of its ancestor prefixes, and
whenever `d1` is an ancestor of `d2` both in the output, `d1` appears
at a strictly earlier index; for the entries with remote paths
`a/b/c.txt` and `a/d.txt` the output is `["a", "a/b"]`. -/
theorem getRemoteDirectories_spec (files : List FileEntry) :
    (getRemoteDirectories files).Nodup ∧
    (∀ f ∈ files, dirname f.remote ≠ "." → "" ∉ splitSlash (dirname f.remote) →
      ∀ p, SegAncestor p (dirname f.remote) ∨ p = dirname f.remote →
        p ∈ getRemoteDirectories files) ∧
    (∀ d1 d2, d1 ∈ getRemoteDirectories files → d2 ∈ getRemoteDirectories files →
      SegAncestor d1 d2 →
      (getRemoteDirectories files).indexOf d1 < (getRemoteDirectories files).indexOf d2) ∧
    getRemoteDirectories
      [⟨"/src/a/b/c.txt", "a/b/c.txt"⟩, ⟨"/src/a/d.txt", "a/d.txt"⟩] = ["a", "a/b"] := by
  refine ⟨nodup_getRemoteDirectories files, ?_, ?_, by decide⟩
  · intro f hf hdot hw p hp
    rw [mem_getRemoteDirectories]
    unfold collectDirs
    apply mem_foldl_collect_of_mem files [] f hf
    · rintro (h | h)
      · rw [h] at hw
        exact hw (by decide)
      · exact hdot h
    · exact mem_prefixesAux_of_ancestor p _ hw hp
  · intro d1 d2 h1 h2 ha
    exact pairwise_indexOf_lt _ (sorted_getRemoteDirectories files)
      (nodup_getRemoteDirectories files) d1 d2 h1 h2 ha.depth_lt

/-- Witness for C4 at the spec's example entries: the ancestor `a` of
the entry directory `a/b` is in the output, and is ordered strictly
before `a/b`. -/
theorem getRemoteDirectories_spec_witness :
    "a" ∈ getRemoteDirectories
        [⟨"/src/a/b/c.txt", "a/b/c.txt"⟩, ⟨"/src/a/d.txt", "a/d.txt"⟩] ∧
    (getRemoteDirectories
        [⟨"/src/a/b/c.txt", "a/b/c.txt"⟩, ⟨"/src/a/d.txt", "a/d.txt"⟩]).indexOf "a" <
      (getRemoteDirectories
        [⟨"/src/a/b/c.txt", "a/b/c.txt"⟩, ⟨"/src/a/d.txt", "a/d.txt"⟩]).indexOf "a/b" := by
  have h := getRemoteDirectories_spec
    [⟨"/src/a/b/c.txt", "a/b/c.txt"⟩, ⟨"/src/a/d.txt", "a/d.txt"⟩]
  constructor
  · exact h.2.1 ⟨"/src/a/b/c.txt", "a/b/c.txt"⟩ (by decide) (by decide) (by decide)
      "a" (Or.inl ⟨["b"], by decide, by decide⟩)
  · exact h.2.2.1 "a" "a/b" (by decide) (by decide) ⟨["b"], by decide, by decide⟩

/-- C6: a scan from the root excludes exactly the files whose base name
is in `excludeFiles` or matches an `excludePatterns` glob, and descends
into no subtree whose root directory name is in `excludeDirectories`:
an entry is produced precisely for each reachable file none of whose
ancestor directory names is in `excludeDirectories` (directory names
are tested only for exact membership there — never against the glob
patterns) and whose own name passes both file filters. -/
theorem scanDirectory_excludes_spec (cfg : ExcludeConfig) (rootDir : String)
    (items : List FSTree) (e : FileEntry) :
    e ∈ scanDirectory cfg rootDir "" items ↔
      ∃ t ds n, t ∈ items ∧ TreeFile t ds n ∧
        (∀ d ∈ ds, cfg.excludeDirectories.contains d = false) ∧
        cfg.excludeFiles.contains n = false ∧
        matchesPattern n cfg.excludePatterns = false ∧
        e = ⟨(ds ++ [n]).foldl joinPath rootDir, (ds ++ [n]).foldl addSeg ""⟩ :=
  scanDirectory_mem_iff cfg rootDir "" items e

/-- Witness for C6: in the spec's end-to-end example tree, the file
`src/index.js` is produced by the scan while the whole `node_modules`
subtree is skipped. -/
theorem scanDirectory_excludes_spec_witness :
    (⟨"/proj/src/index.js", "src/index.js"⟩ : FileEntry) ∈
      scanDirectory ⟨["node_modules"], [], []⟩ "/proj" ""
        [FSTree.dir "src" [FSTree.file "index.js"],
         FSTree.dir "node_modules" [FSTree.file "x.js"],
         FSTree.file "deploy.sh"] := by
  refine (scanDirectory_excludes_spec ⟨["node_modules"], [], []⟩ "/proj"
      [FSTree.dir "src" [FSTree.file "index.js"],
       FSTree.dir "node_modules" [FSTree.file "x.js"],
       FSTree.file "deploy.sh"]
      ⟨"/proj/src/index.js", "src/index.js"⟩).mpr
    ⟨FSTree.dir "src" [FSTree.file "index.js"], ["src"], "index.js",
      List.mem_cons_self _ _,
      TreeFile.dir "src" [FSTree.file "index.js"] (FSTree.file "index.js") [] "index.js"
        (List.mem_cons_self _ _) (TreeFile.file "index.js"),
      ?_, by decide, by decide, by decide⟩
  intro d hd
  rcases List.mem_singleton.mp hd with rfl
  decide

/-- C5: the deployment driver releases the session on every exit path.
After any run the deployer state is disconnected; whenever the run ends
fatally the action trace ends with a `disconnect()` call followed by
`process.exit(1)` (so `disconnect()` is invoked before the error
propagates), and on the success path the trace ends with a
`disconnect()` call. -/
theorem deployCommand_cleanup_spec (st : StageOutcomes) :
    ((deployCommand st).2.1).connected = false ∧
    (∀ e, (deployCommand st).2.2 = DriverOutcome.fatal e →
      ∃ pre, (deployCommand st).1 =
        pre ++ [DriverAct.disconnectAct, DriverAct.exitAct 1]) ∧
    ((deployCommand st).2.2 = DriverOutcome.success →
      ∃ pre, (deployCommand st).1 = pre ++ [DriverAct.disconnectAct]) := by
  obtain ⟨cr, vc, sr, conr, sir, cdr, ur, rs, scr⟩ := st
  rcases cr with e0 | u0
  · have hd : deployCommand ⟨Except.error e0, vc, sr, conr, sir, cdr, ur, rs, scr⟩ =
        ([DriverAct.loadConfigAct, DriverAct.disconnectAct, DriverAct.exitAct 1],
          ⟨false⟩, DriverOutcome.fatal e0) := by
      simp [deployCommand, tryBody, disconnect]
    rw [hd]
    exact ⟨rfl, fun e he => ⟨[DriverAct.loadConfigAct], rfl⟩, fun h => by simp at h⟩
  rcases vc
  · have hd : deployCommand ⟨Except.ok u0, false, sr, conr, sir, cdr, ur, rs, scr⟩ =
        ([DriverAct.loadConfigAct, DriverAct.exitAct 1], ⟨false⟩,
          DriverOutcome.earlyExit 1) := by
      simp [deployCommand, tryBody]
    rw [hd]
    exact ⟨rfl, fun e he => by simp at he, fun h => by simp at h⟩
  rcases sr with e1 | files
  · have hd : deployCommand ⟨Except.ok u0, true, Except.error e1, conr, sir, cdr, ur, rs, scr⟩ =
        ([DriverAct.loadConfigAct, DriverAct.scanAct, DriverAct.disconnectAct,
          DriverAct.exitAct 1], ⟨false⟩, DriverOutcome.fatal e1) := by
      simp [deployCommand, tryBody, disconnect]
    rw [hd]
    exact ⟨rfl, fun e he => ⟨[DriverAct.loadConfigAct, DriverAct.scanAct], rfl⟩,
      fun h => by simp at h⟩
  by_cases hf : files.length = 0
  · have hd : deployCommand ⟨Except.ok u0, true, Except.ok files, conr, sir, cdr, ur, rs, scr⟩ =
        ([DriverAct.loadConfigAct, DriverAct.scanAct, DriverAct.exitAct 0], ⟨false⟩,
          DriverOutcome.earlyExit 0) := by
      simp [deployCommand, tryBody, hf]
    rw [hd]
    exact ⟨rfl, fun e he => by simp at he, fun h => by simp at h⟩
  rcases conr with e2 | u2
  · have hd : deployCommand
        ⟨Except.ok u0, true, Except.ok files, Except.error e2, sir, cdr, ur, rs, scr⟩ =
        ([DriverAct.loadConfigAct, DriverAct.scanAct, DriverAct.connectAct,
          DriverAct.disconnectAct, DriverAct.exitAct 1], ⟨false⟩,
          DriverOutcome.fatal e2) := by
      simp [deployCommand, tryBody, hf, disconnect]
    rw [hd]
    exact ⟨rfl,
      fun e he => ⟨[DriverAct.loadConfigAct, DriverAct.scanAct, DriverAct.connectAct], rfl⟩,
      fun h => by simp at h⟩
  by_cases hd0 : (getRemoteDirectories files).length = 0
  · rcases ur with e3 | u3
    · have hd : deployCommand
          ⟨Except.ok u0, true, Except.ok files, Except.ok u2, sir, cdr,
            Except.error e3, rs, scr⟩ =
          ([DriverAct.loadConfigAct, DriverAct.scanAct, DriverAct.connectAct,
            DriverAct.serverInfoAct, DriverAct.uploadAct, DriverAct.disconnectAct,
            DriverAct.exitAct 1], ⟨false⟩, DriverOutcome.fatal e3) := by
        simp [deployCommand, tryBody, hf, hd0, disconnect]
      rw [hd]
      exact ⟨rfl,
        fun e he => ⟨[DriverAct.loadConfigAct, DriverAct.scanAct, DriverAct.connectAct,
          DriverAct.serverInfoAct, DriverAct.uploadAct], rfl⟩,
        fun h => by simp at h⟩
    · rcases rs
      · have hd : deployCommand
            ⟨Except.ok u0, true, Except.ok files, Except.ok u2, sir, cdr,
              Except.ok u3, false, scr⟩ =
            ([DriverAct.loadConfigAct, DriverAct.scanAct, DriverAct.connectAct,
              DriverAct.serverInfoAct, DriverAct.uploadAct, DriverAct.disconnectAct],
              ⟨false⟩, DriverOutcome.success) := by
          simp [deployCommand, tryBody, hf, hd0, disconnect]
        rw [hd]
        exact ⟨rfl, fun e he => by simp at he,
          fun h => ⟨[DriverAct.loadConfigAct, DriverAct.scanAct, DriverAct.connectAct,
            DriverAct.serverInfoAct, DriverAct.uploadAct], rfl⟩⟩
      · have hd : deployCommand
            ⟨Except.ok u0, true, Except.ok files, Except.ok u2, sir, cdr,
              Except.ok u3, true, scr⟩ =
            ([DriverAct.loadConfigAct, DriverAct.scanAct, DriverAct.connectAct,
              DriverAct.serverInfoAct, DriverAct.uploadAct, DriverAct.scriptAct,
              DriverAct.disconnectAct], ⟨false⟩, DriverOutcome.success) := by
          simp [deployCommand, tryBody, hf, hd0, disconnect]
        rw [hd]
        exact ⟨rfl, fun e he => by simp at he,
          fun h => ⟨[DriverAct.loadConfigAct, DriverAct.scanAct, DriverAct.connectAct,
            DriverAct.serverInfoAct, DriverAct.uploadAct, DriverAct.scriptAct], rfl⟩⟩
  · rcases cdr with e4 | u4
    · have hd : deployCommand
          ⟨Except.ok u0, true, Except.ok files, Except.ok u2, sir,
            Except.error e4, ur, rs, scr⟩ =
          ([DriverAct.loadConfigAct, DriverAct.scanAct, DriverAct.connectAct,
            DriverAct.serverInfoAct, DriverAct.createDirsAct, DriverAct.disconnectAct,
            DriverAct.exitAct 1], ⟨false⟩, DriverOutcome.fatal e4) := by
        simp [deployCommand, tryBody, hf, hd0, disconnect]
      rw [hd]
      exact ⟨rfl,
        fun e he => ⟨[DriverAct.loadConfigAct, DriverAct.scanAct, DriverAct.connectAct,
          DriverAct.serverInfoAct, DriverAct.createDirsAct], rfl⟩,
        fun h => by simp at h⟩
    · rcases ur with e3 | u3
      · have hd : deployCommand
            ⟨Except.ok u0, true, Except.ok files, Except.ok u2, sir,
              Except.ok u4, Except.error e3, rs, scr⟩ =
            ([DriverAct.loadConfigAct, DriverAct.scanAct, DriverAct.connectAct,
              DriverAct.serverInfoAct, DriverAct.createDirsAct, DriverAct.uploadAct,
              DriverAct.disconnectAct, DriverAct.exitAct 1], ⟨false⟩,
              DriverOutcome.fatal e3) := by
          simp [deployCommand, tryBody, hf, hd0, disconnect]
        rw [hd]
        exact ⟨rfl,
          fun e he => ⟨[DriverAct.loadConfigAct, DriverAct.scanAct, DriverAct.connectAct,
            DriverAct.serverInfoAct, DriverAct.createDirsAct, DriverAct.uploadAct], rfl⟩,
          fun h => by simp at h⟩
      · rcases rs
        · have hd : deployCommand
              ⟨Except.ok u0, true, Except.ok files, Except.ok u2, sir,
                Except.ok u4, Except.ok u3, false, scr⟩ =
              ([DriverAct.loadConfigAct, DriverAct.scanAct, DriverAct.connectAct,
                DriverAct.serverInfoAct, DriverAct.createDirsAct, DriverAct.uploadAct,
                DriverAct.disconnectAct], ⟨false⟩, DriverOutcome.success) := by
            simp [deployCommand, tryBody, hf, hd0, disconnect]
          rw [hd]
          exact ⟨rfl, fun e he => by simp at he,
            fun h => ⟨[DriverAct.loadConfigAct, DriverAct.scanAct, DriverAct.connectAct,
              DriverAct.serverInfoAct, DriverAct.createDirsAct, DriverAct.uploadAct], rfl⟩⟩
        · have hd : deployCommand
              ⟨Except.ok u0, true, Except.ok files, Except.ok u2, sir,
                Except.ok u4, Except.ok u3, true, scr⟩ =
              ([DriverAct.loadConfigAct, DriverAct.scanAct, DriverAct.connectAct,
                DriverAct.serverInfoAct, DriverAct.createDirsAct, DriverAct.uploadAct,
                DriverAct.scriptAct, DriverAct.disconnectAct], ⟨false⟩,
                DriverOutcome.success) := by
            simp [deployCommand, tryBody, hf, hd0, disconnect]
          rw [hd]
          exact ⟨rfl, fun e he => by simp at he,
            fun h => ⟨[DriverAct.loadConfigAct, DriverAct.scanAct, DriverAct.connectAct,
              DriverAct.serverInfoAct, DriverAct.createDirsAct, DriverAct.uploadAct,
              DriverAct.scriptAct], rfl⟩⟩

/-- Witness for C5: a concrete run whose upload stage rejects ends
fatally, with the disconnect call in the trace before the exit. -/
theorem deployCommand_cleanup_spec_witness :
    ∃ pre,
      (deployCommand
        ⟨Except.ok (), true, Except.ok [⟨"/p/a.txt", "a.txt"⟩], Except.ok (),
          Except.ok (), Except.ok (), Except.error "boom", false,
          Except.ok ⟨0, "", ""⟩⟩).1 =
        pre ++ [DriverAct.disconnectAct, DriverAct.exitAct 1] :=
  (deployCommand_cleanup_spec
    ⟨Except.ok (), true, Except.ok [⟨"/p/a.txt", "a.txt"⟩], Except.ok (),
      Except.ok (), Except.ok (), Except.error "boom", false,
      Except.ok ⟨0, "", ""⟩⟩).2.1 "boom" (by decide)
